import Mathlib

/-!
Shallow embedding of the span-annotation core of the culture-annotation-tool
repository (a React/TypeScript single-page application).  Task text is
modelled as `List Char` (one element per UTF-16 code unit of the JS string;
all inputs of interest are ASCII), character offsets as `Nat`, and the
percentage coordinates of image pins as `ℚ`.  Each definition mirrors one
function of the source: the paragraph segmenter and manual-selection gate of
`App.tsx`, the selection handler of `components/TextDisplay.tsx`, the drag
handler of `components/ImageWithPinpoints.tsx`, and the persistence-layer
`saveAnnotations` / import flow of the service module.
-/

/-- JS whitespace test (`\s` of the regexes and `String.prototype.trim`),
restricted to the ASCII whitespace characters; the source texts contain no
non-ASCII whitespace. -/
def isJsWs (c : Char) : Bool :=
  c = ' ' || c = '\t' || c = '\n' || c = '\r' || c = '\x0b' || c = '\x0c'

/-- `String.prototype.trim`: drop whitespace from both ends. -/
def jsTrim (l : List Char) : List Char :=
  ((l.dropWhile isJsWs).reverse.dropWhile isJsWs).reverse

/-- The pattern `pat` occurs in `text` at index `i`. -/
def occursAt (text pat : List Char) (i : Nat) : Bool :=
  pat.isPrefixOf (text.drop i)

/-- Linear scan for the first occurrence of `pat` at an index `≥ i`;
`fuel` bounds the number of candidate positions inspected. -/
def findFromGo (text pat : List Char) : Nat → Nat → Option Nat
  | 0, _ => none
  | fuel + 1, i => if occursAt text pat i then some i else findFromGo text pat fuel (i + 1)

/-- JS `text.indexOf(pat, s)`: smallest index `≥ s` at which `pat` occurs in
`text`, with `none` standing for the JS result `-1`. -/
def findFrom (text pat : List Char) (s : Nat) : Option Nat :=
  findFromGo text pat (text.length + 1 - s) s

/-- JS `text.slice(a, b)` for `0 ≤ a ≤ b`. -/
def jsSlice (l : List Char) (a b : Nat) : List Char :=
  (l.drop a).take (b - a)

/-! ### Paragraph segmenter (`App.tsx`, `paragraphs` memo)

The source splits the task text with `text.split(/\n\s*\n/)`, drops pieces
whose `trim()` is empty, and locates each retained piece with
`text.indexOf(part, searchStartIndex)`, advancing `searchStartIndex` past
each match. -/

/-- Index of the last `'\n'` in `l`, if any. -/
def lastNewlineIdx (l : List Char) : Option Nat :=
  (List.range l.length).foldl
    (fun acc q => if l.getD q ' ' = '\n' then some q else acc) none

/-- Length of the leftmost-longest match of the separator regex `/\n\s*\n/`
at the head of the list (`none` when the regex does not match there).  The
greedy `\s*` with backtracking matches up to the last `'\n'` inside the
whitespace run that follows the leading `'\n'`. -/
def matchBlankSep : List Char → Option Nat
  | [] => none
  | c :: rest =>
    if c = '\n' then
      match lastNewlineIdx (rest.takeWhile isJsWs) with
      | some q => some (q + 2)
      | none => none
    else none

/-- Worker for `text.split(/\n\s*\n/)`: scans left to right, cutting at each
leftmost separator match; `fuel` bounds the scan (it is seeded with more fuel
than the list has characters, so the fallback branch is unreachable). -/
def splitBlankGo : Nat → List Char → List Char → List (List Char)
  | _, [], acc => [acc.reverse]
  | 0, l, acc => [acc.reverse ++ l]
  | fuel + 1, c :: rest, acc =>
    match matchBlankSep (c :: rest) with
    | some len => acc.reverse :: splitBlankGo fuel (rest.drop (len - 1)) []
    | none => splitBlankGo fuel rest (c :: acc)

/-- JS `text.split(/\n\s*\n/)`. -/
def splitBlank (l : List Char) : List (List Char) :=
  splitBlankGo (l.length + 1) l []

/-- A paragraph as produced by the segmenter: its text and the character
offset of that text inside the task's full text. -/
structure Paragraph where
  text : List Char
  offset : Nat
deriving DecidableEq, Repr

/-- The `forEach` loop of the `paragraphs` memo: for each piece whose trim is
non-empty, locate it from `searchStartIndex` on; on a hit, record the
paragraph and move `searchStartIndex` past it; misses are skipped silently. -/
def locateParts (text : List Char) : List (List Char) → Nat → List Paragraph
  | [], _ => []
  | p :: ps, searchStartIndex =>
    if jsTrim p = [] then
      locateParts text ps searchStartIndex
    else
      match findFrom text p searchStartIndex with
      | some index => ⟨p, index⟩ :: locateParts text ps (index + p.length)
      | none => locateParts text ps searchStartIndex

/-- The `paragraphs` memo of `App.tsx` for one task text. -/
def paragraphs (text : List Char) : List Paragraph :=
  locateParts text (splitBlank text) 0

/-! ### Text annotations and the Span Annotation Store (`App.tsx`)

Only the fields the verified properties touch are carried; the remaining
judgment fields of the TS `Annotation` interface (justifications, flags,
culture proxy, …) ride along unchanged through every operation modelled here
and are therefore omitted.  The TS field `end` is a Lean keyword and is
rendered `endPos`. -/

/-- The `type` discriminator of a text annotation. -/
inductive AnnType where
  | manual
  | ai
deriving DecidableEq, Repr

/-- A text annotation: `[start, endPos)` is a half-open character range into
the task's full text. -/
structure Annotation where
  id : String
  start : Nat
  endPos : Nat
  text : List Char := []
  comment : String := ""
  type : AnnType := .manual
deriving DecidableEq, Repr

/-- Bounds-only constructor used for concrete instances. -/
def mkAnn (s e : Nat) : Annotation := { id := "", start := s, endPos := e }

/-- A browser text selection as reported to `App.tsx` (`SelectionState`). -/
structure SelectionState where
  start : Nat
  endPos : Nat
  text : List Char
deriving DecidableEq, Repr

/-- Two half-open ranges share at least one character position. -/
def rangesOverlap (a b : Annotation) : Bool :=
  a.start < b.endPos && b.start < a.endPos

/-- The overlap test of `handleSelect` (`App.tsx` line 977):
`annotations.some(a => (s.start >= a.start && s.start < a.end) ||
(s.end > a.start && s.end <= a.end))`. -/
def overlapsExisting (annotations : List Annotation) (s e : Nat) : Bool :=
  annotations.any fun a =>
    (decide (a.start ≤ s) && decide (s < a.endPos)) ||
    (decide (a.start < e) && decide (e ≤ a.endPos))

/-- `handleSelect`: the selection survives (the type selector / editor opens
and the selection becomes `currentSelection`) exactly when the overlap test
fails; otherwise it is dropped. -/
def handleSelect (annotations : List Annotation) (s : SelectionState) :
    Option SelectionState :=
  if overlapsExisting annotations s.start s.endPos then none else some s

/-- One pass of the manual-creation flow: `handleSelect` gates the selection,
and on acceptance `saveTextAnnotation` appends a fresh `manual` annotation
built from it (`App.tsx` lines 1050–1075). -/
def creationStep (annotations : List Annotation) (id : String)
    (s : SelectionState) : List Annotation :=
  match handleSelect annotations s with
  | none => annotations
  | some sel =>
    annotations ++
      [{ id := id, start := sel.start, endPos := sel.endPos, text := sel.text,
         type := .manual }]

/-- Annotation-store states reachable through the manual creation flow,
starting from the empty store of a freshly loaded task. -/
inductive ReachableStore : List Annotation → Prop where
  | nil : ReachableStore []
  | step (l : List Annotation) (id : String) (s : SelectionState)
      (h : ReachableStore l) : ReachableStore (creationStep l id s)

/-! ### AI suggestion batch insertion (`App.tsx`, `getAiSuggestions`) -/

/-- The intersection test of the AI batch filter:
`na.start < pa.end && na.end > pa.start`. -/
def aiIntersects (pa na : Annotation) : Bool :=
  na.start < pa.endPos && na.endPos > pa.start

/-- The filter of `getAiSuggestions` (`App.tsx` line 1340): keep the new
annotations that intersect no annotation of the pre-batch list `prev`. -/
def aiFilter (prev newAnnos : List Annotation) : List Annotation :=
  newAnnos.filter fun na => !(prev.any fun pa => aiIntersects pa na)

/-- The state update of `getAiSuggestions`:
`updated = [...prev, ...filtered]`. -/
def aiSuggestionsUpdate (prev newAnnos : List Annotation) : List Annotation :=
  prev ++ aiFilter prev newAnnos

/-! ### Offset reconciliation (`App.tsx`, paragraph render, lines 1819–1830) -/

/-- The filter predicate of the paragraph view:
`a.start >= para.offset && a.end <= para.offset + para.text.length`. -/
def insidePara (para : Paragraph) (a : Annotation) : Bool :=
  decide (para.offset ≤ a.start) && decide (a.endPos ≤ para.offset + para.text.length)

/-- Global-to-local shift applied to a displayed annotation:
`{...a, start: a.start - para.offset, end: a.end - para.offset}`. -/
def toLocal (para : Paragraph) (a : Annotation) : Annotation :=
  { a with start := a.start - para.offset, endPos := a.endPos - para.offset }

/-- Local-to-global shift of the edit path (`onEditAnnotation`):
`{...a, start: a.start + para.offset, end: a.end + para.offset}`. -/
def toGlobal (para : Paragraph) (a : Annotation) : Annotation :=
  { a with start := a.start + para.offset, endPos := a.endPos + para.offset }

/-- The annotations handed to `TextDisplay` for one paragraph: filter to the
ranges lying inside the paragraph, then shift to local coordinates. -/
def displayedAnnotations (para : Paragraph) (annotations : List Annotation) :
    List Annotation :=
  (annotations.filter (insidePara para)).map (toLocal para)

/-- The `onSelect` wrapper of the paragraph render: re-base the editor's
local selection, `globalStart = para.offset + s.start`, and hand
`{...s, start: globalStart, end: globalStart + s.text.length}` to
`handleSelect`. -/
def selectionToGlobal (para : Paragraph) (s : SelectionState) : SelectionState :=
  { s with start := para.offset + s.start,
           endPos := para.offset + s.start + s.text.length }

/-- Global-to-local shift on a selection opened for editing from a paragraph
view (the inverse direction of `selectionToGlobal`). -/
def selectionToLocal (para : Paragraph) (s : SelectionState) : SelectionState :=
  { s with start := s.start - para.offset, endPos := s.endPos - para.offset }

/-! ### Persistence layer (`saveAnnotations` of the service module)

The `annotations` table is modelled as a list of rows; `saveAnnotations`
first deletes every row matching the `(submission_id, task_id, user_id)` key
and then inserts one row per incoming annotation, exactly as the source's
`delete().eq(...).eq(...).eq(...)` followed by `insert(annotationsData)`. -/

/-- One row of the `annotations` table, keyed by submission, task and user. -/
structure AnnRow where
  submissionId : String
  taskId : String
  userId : String
  ann : Annotation
deriving DecidableEq, Repr

/-- The `.eq('submission_id', sid).eq('task_id', tid).eq('user_id', uid)`
match used by both the delete and the fetch. -/
def rowKeyMatches (sid tid uid : String) (r : AnnRow) : Bool :=
  r.submissionId == sid && r.taskId == tid && r.userId == uid

/-- `saveAnnotations(taskId, userId, annotations, submissionId)`: delete the
rows of the key, then insert the incoming list. -/
def saveAnnotations (store : List AnnRow) (sid tid uid : String)
    (annotations : List Annotation) : List AnnRow :=
  store.filter (fun r => !rowKeyMatches sid tid uid r) ++
    annotations.map fun a => ⟨sid, tid, uid, a⟩

/-- `fetchAnnotations` restricted to one submission key: the stored
annotation list for a `(task, user)` pair. -/
def annotationsFor (store : List AnnRow) (sid tid uid : String) :
    List Annotation :=
  (store.filter (rowKeyMatches sid tid uid)).map (·.ann)

/-! ### Import flow (`App.tsx`, `handleImportProject`)

The bundle's three top-level keys are modelled as `Option`s (`none` is a
missing/falsy key, matching `!data.project || !data.tasks ||
!data.annotations`).  The remote tables touched by the merge are gathered in
an `AppState`; `applyImport` performs the sequence of upserts the source
issues after validation passes. -/

/-- A project row (only the identifying fields matter here). -/
structure Project where
  id : String
  title : String := ""
deriving DecidableEq, Repr

/-- A task row as reconstructed by the import (named `TaskRow` because core
Lean already declares `Task`): `text` comes from the explicit `text` property
or from joining a `paragraphs` array with `"\n\n"`. -/
structure TaskRow where
  id : String
  text : List Char := []
deriving DecidableEq, Repr

/-- An incoming task record of the bundle: `text` may be absent or the falsy
empty string, in which case the `paragraphs` array (if any) is joined. -/
structure TaskJson where
  id : String
  text : Option (List Char) := none
  paragraphs : Option (List (List Char)) := none
deriving DecidableEq, Repr

/-- `t.text || (t.paragraphs && Array.isArray(t.paragraphs) ?
t.paragraphs.join('\n\n') : '')`. -/
def reconstructTaskText (t : TaskJson) : List Char :=
  match t.text with
  | some s =>
    if s = [] then
      match t.paragraphs with
      | some ps => (ps.intersperse ['\n', '\n']).flatten
      | none => []
    else s
  | none =>
    match t.paragraphs with
    | some ps => (ps.intersperse ['\n', '\n']).flatten
    | none => []

/-- Per-task payload of a per-user bundle entry. -/
structure TaskImportData where
  taskId : String
  annotations : List Annotation := []
deriving DecidableEq, Repr

/-- One per-user entry of the bundle's `annotations` array; `userEmail` and
`userId` are optional because the source skips entries missing either. -/
structure UserImport where
  userEmail : Option String := none
  userId : Option String := none
  completedTaskIds : List String := []
  taskData : List TaskImportData := []
deriving DecidableEq, Repr

/-- An import bundle; `none` fields model missing (falsy) top-level keys. -/
structure Bundle where
  project : Option Project := none
  tasks : Option (List TaskJson) := none
  annotations : Option (List UserImport) := none

/-- A per-user task submission row (upserted by `(taskId, userId)`). -/
structure Submission where
  taskId : String
  userId : String
  completed : Bool
deriving DecidableEq, Repr

/-- The remote tables the import mutates. -/
structure AppState where
  projects : List Project
  tasks : List TaskRow
  submissions : List Submission
  annRows : List AnnRow
deriving DecidableEq, Repr

/-- Upsert into a list by a key projection: replace the matching entries if
any exist, else append (the `.upsert(payload, { onConflict: 'id' })` of the
service module). -/
def upsertBy {α : Type} (key : α → String) (l : List α) (x : α) : List α :=
  if l.any (fun y => key y == key x) then
    l.map fun y => if key y == key x then x else y
  else l ++ [x]

/-- The submission id `getOrCreateSubmissionId` resolves for a
`(task, user)` pair; it is deterministic per pair, which is all the merge
semantics depend on. -/
def submissionIdFor (tid uid : String) : String := tid ++ ":" ++ uid

/-- Mark the `(taskId, userId)` submission completed, creating it if absent
(`saveTaskSubmission(..., true)`). -/
def markSubmissionCompleted (subs : List Submission) (tid uid : String) :
    List Submission :=
  upsertBy (fun s => s.taskId ++ ":" ++ s.userId) subs ⟨tid, uid, true⟩

/-- One per-user entry of the merge loop: entries missing `userEmail` or
`userId` are skipped; otherwise every completed task id and every per-task
payload is upserted. -/
def applyUserImport (st : AppState) (u : UserImport) : AppState :=
  match u.userEmail, u.userId with
  | some _, some uid =>
    let st1 := { st with
      submissions := u.completedTaskIds.foldl
        (fun subs tid => markSubmissionCompleted subs tid uid) st.submissions }
    u.taskData.foldl
      (fun st2 td =>
        { st2 with
          submissions := markSubmissionCompleted st2.submissions td.taskId uid,
          annRows := saveAnnotations st2.annRows
            (submissionIdFor td.taskId uid) td.taskId uid td.annotations })
      st1
  | _, _ => st

/-- The merge performed once top-level validation passes: upsert the project,
upsert each reconstructed task, then apply every per-user entry. -/
def applyImport (st : AppState) (p : Project) (ts : List TaskJson)
    (ans : List UserImport) : AppState :=
  let st1 := { st with projects := upsertBy (·.id) st.projects p }
  let st2 := { st1 with
    tasks := ts.foldl
      (fun acc t => upsertBy (·.id) acc ⟨t.id, reconstructTaskText t⟩) st1.tasks }
  ans.foldl applyUserImport st2

/-- `handleImportProject`: reject the bundle with a user-facing alert when a
top-level key is missing, leaving every table untouched; otherwise run the
merge.  The second component is the error message of the alert, if any. -/
def handleImportProject (st : AppState) (b : Bundle) :
    AppState × Option String :=
  match b.project, b.tasks, b.annotations with
  | some p, some ts, some ans => (applyImport st p ts ans, none)
  | _, _, _ => (st, some "Invalid project file format")

/-! ### Image pin creation (`components/ImageWithPinpoints.tsx`) -/

/-- A drawn pin: top-left corner and size, all in percentage coordinates of
the image's rendered bounding box. -/
structure Pin where
  x : ℚ
  y : ℚ
  width : ℚ
  height : ℚ
deriving DecidableEq, Repr

namespace ImageWithPinpoints

/-- `handleMouseUp` of a completed drag (the `isDrawing` guard has passed):
compute `width`/`height` from the start and end positions; a too-small drag
(`width < 1 && height < 1`) yields a fixed 5×5 square centered on the click
point, otherwise the drawn rectangle is created. -/
def handleMouseUp (startPos endPos : ℚ × ℚ) : Pin :=
  let width := |endPos.1 - startPos.1|
  let height := |endPos.2 - startPos.2|
  if width < 1 ∧ height < 1 then
    ⟨startPos.1 - 2.5, startPos.2 - 2.5, 5, 5⟩
  else
    ⟨min startPos.1 endPos.1, min startPos.2 endPos.2, width, height⟩

end ImageWithPinpoints

/-! ### Text selection (`components/TextDisplay.tsx`) -/

namespace TextDisplay

/-- `handleMouseUp`: trim the browser selection's string; bail out on an
empty trim; otherwise locate the trimmed string's first occurrence in the
paragraph content (`content.indexOf(selectedText)`), and emit
`{start, end: start + selectedText.length, text: selectedText}` when found,
nothing when not. -/
def handleMouseUp (content selectedRaw : List Char) : Option SelectionState :=
  let selectedText := jsTrim selectedRaw
  if selectedText.length = 0 then none
  else
    match findFrom content selectedText 0 with
    | some start => some ⟨start, start + selectedText.length, selectedText⟩
    | none => none

end TextDisplay

/-- Concrete manual annotation created first in the C1 trace. -/
def annA : Annotation := { id := "a", start := 10, endPos := 20 }

/-- Concrete manual annotation created second in the C1 trace; it strictly
contains `annA`, so the selection gate lets it through. -/
def annB : Annotation := { id := "b", start := 5, endPos := 25 }

/-! ## Theorems -/

theorem findFromGo_some {text pat : List Char} {fuel i j : Nat}
    (h : findFromGo text pat fuel i = some j) :
    i ≤ j ∧ occursAt text pat j = true ∧ ∀ k, i ≤ k → k < j → occursAt text pat k = false := by
  induction fuel generalizing i with
  | zero => simp [findFromGo] at h
  | succ fuel ih =>
    rw [findFromGo] at h
    by_cases hocc : occursAt text pat i = true
    · rw [if_pos hocc] at h
      cases h
      exact ⟨Nat.le_refl _, hocc, fun k hk hk' => absurd hk (by omega)⟩
    · rw [if_neg hocc] at h
      obtain ⟨h1, h2, h3⟩ := ih h
      refine ⟨by omega, h2, fun k hk hk' => ?_⟩
      rcases Nat.eq_or_lt_of_le hk with rfl | hlt
      · exact Bool.eq_false_iff.mpr hocc
      · exact h3 k hlt hk'

theorem findFromGo_none_of_never {text pat : List Char} {fuel i : Nat}
    (h : ∀ k, occursAt text pat k = false) :
    findFromGo text pat fuel i = none := by
  induction fuel generalizing i with
  | zero => rfl
  | succ fuel ih => rw [findFromGo, h i, if_neg (by simp), ih]

theorem findFrom_some {text pat : List Char} {s j : Nat}
    (h : findFrom text pat s = some j) :
    s ≤ j ∧ occursAt text pat j = true ∧ ∀ k, s ≤ k → k < j → occursAt text pat k = false :=
  findFromGo_some h

theorem findFrom_none_of_never {text pat : List Char} {s : Nat}
    (h : ∀ k, occursAt text pat k = false) :
    findFrom text pat s = none :=
  findFromGo_none_of_never h

theorem jsSlice_of_occursAt {text pat : List Char} {i : Nat}
    (h : occursAt text pat i = true) :
    jsSlice text i (i + pat.length) = pat := by
  unfold occursAt at h
  obtain ⟨t, ht⟩ := List.isPrefixOf_iff_prefix.mp h
  unfold jsSlice
  rw [Nat.add_sub_cancel_left, ← ht]
  exact List.take_left pat t

theorem locateParts_sound (text : List Char) :
    ∀ (ps : List (List Char)) (s : Nat) (P : Paragraph),
      P ∈ locateParts text ps s →
      s ≤ P.offset ∧ occursAt text P.text P.offset = true ∧ P.text ≠ [] := by
  intro ps
  induction ps with
  | nil => intro s P h; simp [locateParts] at h
  | cons p ps ih =>
    intro s P h
    rw [locateParts] at h
    by_cases htrim : jsTrim p = []
    · rw [if_pos htrim] at h
      exact ih s P h
    · rw [if_neg htrim] at h
      cases hf : findFrom text p s with
      | none =>
        rw [hf] at h
        exact ih s P h
      | some i =>
        rw [hf] at h
        rcases List.mem_cons.mp h with rfl | hmem
        · obtain ⟨h1, h2, -⟩ := findFrom_some hf
          exact ⟨h1, h2, fun hnil => htrim (by rw [show p = [] from hnil]; rfl)⟩
        · obtain ⟨h1, h2, h3⟩ := ih _ P hmem
          obtain ⟨hsi, -, -⟩ := findFrom_some hf
          exact ⟨by omega, h2, h3⟩

theorem locateParts_offsets_increasing (text : List Char) :
    ∀ (ps : List (List Char)) (s : Nat),
      (locateParts text ps s).Pairwise (fun P Q => P.offset < Q.offset) := by
  intro ps
  induction ps with
  | nil => intro s; simp [locateParts]
  | cons p ps ih =>
    intro s
    rw [locateParts]
    by_cases htrim : jsTrim p = []
    · rw [if_pos htrim]; exact ih s
    · rw [if_neg htrim]
      cases hf : findFrom text p s with
      | none => exact ih s
      | some i =>
        refine List.Pairwise.cons (fun Q hQ => ?_) (ih _)
        obtain ⟨h1, -, -⟩ := locateParts_sound text ps (i + p.length) Q hQ
        have hp : 0 < p.length :=
          List.length_pos.mpr fun hnil => htrim (by rw [hnil]; rfl)
        show i < Q.offset
        omega

/-- C1 (counterexample): the no-overlap invariant fails on a reachable store.
Starting from an empty store, the selection [10, 20) passes the gate and is
saved; the selection [5, 25) also passes the gate, because neither its start
nor its end falls inside [10, 20) — the gate does not test for a selection
that strictly contains an existing annotation.  The resulting store holds two
manual annotations with distinct ids whose ranges overlap (position 10 is
covered by both). -/
theorem c1_counterexample :
    ReachableStore [annA, annB] ∧ annA.id ≠ annB.id ∧
      annA.type = .manual ∧ annB.type = .manual ∧
      rangesOverlap annA annB = true ∧
      (annA.start ≤ 10 ∧ 10 < annA.endPos) ∧
      (annB.start ≤ 10 ∧ 10 < annB.endPos) := by
  refine ⟨?_, by decide, by decide, by decide, by decide, by decide, by decide⟩
  have h1 := ReachableStore.step [] "a" ⟨10, 20, []⟩ ReachableStore.nil
  have h2 := ReachableStore.step _ "b" ⟨5, 25, []⟩ h1
  have e : creationStep (creationStep [] "a" ⟨10, 20, []⟩) "b" ⟨5, 25, []⟩ =
      [annA, annB] := by decide
  rw [e] at h2
  exact h2

/-- C1 (amended): in every store state reachable through the manual creation
flow, all annotations carry type `manual`, and two overlapping annotations
are always nested — the later-created one strictly contains the earlier one
(the gate admits a selection that strictly contains an existing annotation,
but never one whose start or end falls inside an existing annotation under
the half-open rule). -/
theorem c1_amended_no_partial_overlap :
    ∀ (l : List Annotation), ReachableStore l →
      (∀ a ∈ l, a.type = .manual) ∧
      l.Pairwise (fun a b => rangesOverlap a b = true →
        b.start < a.start ∧ a.endPos < b.endPos) := by
  intro l h
  induction h with
  | nil => simp
  | step l id s h ih =>
    by_cases hov : overlapsExisting l s.start s.endPos
    · simpa [creationStep, handleSelect, hov] using ih
    · simp only [creationStep, handleSelect, hov, Bool.false_eq_true, if_false]
      constructor
      · intro a ha
        rcases List.mem_append.mp ha with ha | ha
        · exact ih.1 a ha
        · simp at ha; rw [ha]
      · rw [List.pairwise_append]
        refine ⟨ih.2, by simp, ?_⟩
        intro a ha b hb
        simp at hb
        subst hb
        intro hovab
        have ha' : ¬((a.start ≤ s.start ∧ s.start < a.endPos) ∨
            (a.start < s.endPos ∧ s.endPos ≤ a.endPos)) := by
          intro hcon
          exact hov (by
            simp only [overlapsExisting, List.any_eq_true]
            exact ⟨a, ha, by simpa using hcon⟩)
        simp only [rangesOverlap, Bool.and_eq_true, decide_eq_true_eq] at hovab
        simp only at hovab ⊢
        omega

/-- C1 (witness): the amended invariant evaluated on the one-step reachable
store holding only `annA`. -/
theorem c1_amended_witness : annA.type = AnnType.manual :=
  (c1_amended_no_partial_overlap [annA]
    (ReachableStore.step [] "a" ⟨10, 20, []⟩ ReachableStore.nil)).1 annA (by decide)

/-- C2: a candidate selection is rejected by the manual-creation gate (the
selection is dropped, no editor opens) exactly when some existing annotation
a satisfies (s >= a.start && s < a.end) || (e > a.start && e <= a.end);
adjacent ranges are accepted.  In particular, against an existing annotation
[10, 20), the selection [15, 25) is rejected and [20, 30) is accepted. -/
theorem c2_overlap_gate :
    (∀ (annotations : List Annotation) (s : SelectionState),
        handleSelect annotations s = none ↔
          ∃ a ∈ annotations,
            (a.start ≤ s.start ∧ s.start < a.endPos) ∨
            (a.start < s.endPos ∧ s.endPos ≤ a.endPos))
    ∧ handleSelect [mkAnn 10 20] ⟨15, 25, []⟩ = none
    ∧ handleSelect [mkAnn 10 20] ⟨20, 30, []⟩ = some ⟨20, 30, []⟩ := by
  refine ⟨fun annotations s => ?_, by decide, by decide⟩
  have key : (handleSelect annotations s = none) ↔
      overlapsExisting annotations s.start s.endPos = true := by
    unfold handleSelect
    split <;> simp_all
  rw [key]
  simp [overlapsExisting, List.any_eq_true]

/-- C2 (witness): the gate's characterisation instantiated at an existing
annotation [0, 5) and the candidate [3, 8), whose start falls inside it. -/
theorem c2_overlap_gate_witness : handleSelect [mkAnn 0 5] ⟨3, 8, []⟩ = none :=
  (c2_overlap_gate.1 [mkAnn 0 5] ⟨3, 8, []⟩).mpr ⟨mkAnn 0 5, by decide, by decide⟩

/-- C3: every paragraph produced by the segmenter has a non-negative offset,
slicing the task text at [offset, offset + text.length) recovers the
paragraph text exactly, and offsets of successive paragraphs are strictly
increasing (each retained segment is located searching from just past the
previous match, so duplicated paragraph text lands at distinct offsets). -/
theorem c3_segmenter_postcondition (text : List Char) :
    (∀ P ∈ paragraphs text,
        0 ≤ P.offset ∧
        jsSlice text P.offset (P.offset + P.text.length) = P.text)
    ∧ (paragraphs text).Pairwise (fun P Q => P.offset < Q.offset) := by
  constructor
  · intro P hP
    obtain ⟨-, hocc, -⟩ := locateParts_sound text _ 0 P hP
    exact ⟨Nat.zero_le _, jsSlice_of_occursAt hocc⟩
  · exact locateParts_offsets_increasing text _ 0

/-- C3 (witness): slice recovery evaluated on the two-paragraph text
"A\n\nB" at its first paragraph. -/
theorem c3_segmenter_witness :
    (⟨"A".data, 0⟩ : Paragraph) ∈ paragraphs "A\n\nB".data ∧
      jsSlice "A\n\nB".data 0 (0 + "A".data.length) = "A".data :=
  ⟨by decide,
    ((c3_segmenter_postcondition "A\n\nB".data).1 ⟨"A".data, 0⟩ (by decide)).2⟩

/-- C4: the AI-suggestion filter keeps exactly the suggestions that intersect
no annotation of the pre-batch list (test na.start < pa.end && na.end >
pa.start), the accepted ones are appended as a batch, and accepted
suggestions are not re-checked among themselves — with an empty store the
mutually overlapping suggestions [0,5) and [3,8) are both kept.  With
existing [0,5) and suggestions [3,8), [10,15), only [10,15) is inserted. -/
theorem c4_ai_suggestion_filtering :
    (∀ (prev ns : List Annotation) (na : Annotation),
        na ∈ aiFilter prev ns ↔
          na ∈ ns ∧ ¬∃ pa ∈ prev, na.start < pa.endPos ∧ pa.start < na.endPos)
    ∧ (∀ prev ns, aiSuggestionsUpdate prev ns = prev ++ aiFilter prev ns)
    ∧ aiSuggestionsUpdate [] [mkAnn 0 5, mkAnn 3 8] = [mkAnn 0 5, mkAnn 3 8]
    ∧ rangesOverlap (mkAnn 0 5) (mkAnn 3 8) = true
    ∧ aiSuggestionsUpdate [mkAnn 0 5] [mkAnn 3 8, mkAnn 10 15] =
        [mkAnn 0 5, mkAnn 10 15] := by
  refine ⟨fun prev ns na => ?_, fun _ _ => rfl, by decide, by decide, by decide⟩
  simp [aiFilter, aiIntersects, List.mem_filter, List.any_eq_true]

/-- C4 (witness): the filter characterisation instantiated at the scenario's
surviving suggestion [10, 15). -/
theorem c4_ai_filter_witness :
    mkAnn 10 15 ∈ aiFilter [mkAnn 0 5] [mkAnn 3 8, mkAnn 10 15] :=
  (c4_ai_suggestion_filtering.1 [mkAnn 0 5] [mkAnn 3 8, mkAnn 10 15]
    (mkAnn 10 15)).mpr ⟨by decide, by decide⟩

/-- C5: the annotations displayed inside a paragraph are exactly those whose
range lies inside [offset, offset + text.length), shifted down by the offset;
local-to-global (selection creation) followed by global-to-local is the
identity on editor selections; global-to-local followed by local-to-global
(the edit path) is the identity on in-paragraph annotations; and an
annotation straddling a paragraph boundary is excluded from that paragraph's
displayed view. -/
theorem c5_offset_reconciliation :
    (∀ (para : Paragraph) (annotations : List Annotation) (x : Annotation),
        x ∈ displayedAnnotations para annotations ↔
          ∃ a ∈ annotations,
            para.offset ≤ a.start ∧ a.endPos ≤ para.offset + para.text.length ∧
            x = toLocal para a)
    ∧ (∀ (para : Paragraph) (s : SelectionState),
        s.endPos = s.start + s.text.length →
        selectionToLocal para (selectionToGlobal para s) = s)
    ∧ (∀ (para : Paragraph) (a : Annotation),
        para.offset ≤ a.start → para.offset ≤ a.endPos →
        toGlobal para (toLocal para a) = a)
    ∧ (∀ (para : Paragraph) (annotations : List Annotation) (a : Annotation),
        a.start < para.offset ∨ para.offset + para.text.length < a.endPos →
        a ∉ annotations.filter (insidePara para)) := by
  refine ⟨fun para annotations x => ?_, fun para s hs => ?_,
    fun para a h1 h2 => ?_, fun para annotations a h => ?_⟩
  · simp [displayedAnnotations, List.mem_map, List.mem_filter, insidePara]
    constructor
    · rintro ⟨a, ⟨ha, c1, c2⟩, rfl⟩
      exact ⟨a, ha, c1, c2, rfl⟩
    · rintro ⟨a, ha, c1, c2, rfl⟩
      exact ⟨a, ⟨ha, c1, c2⟩, rfl⟩
  · cases s with
    | mk st en tx =>
      simp [selectionToLocal, selectionToGlobal] at hs ⊢
      omega
  · cases a with
    | mk id st en tx cm ty =>
      simp [toGlobal, toLocal] at h1 h2 ⊢
      omega
  · intro hmem
    rw [List.mem_filter] at hmem
    obtain ⟨-, hcond⟩ := hmem
    simp [insidePara] at hcond
    omega

/-- C5 (witness): the round trip evaluated on a paragraph at offset 10 and
the local selection (2, 5, "xyz"). -/
theorem c5_round_trip_witness :
    selectionToLocal ⟨"abcdef".data, 10⟩
        (selectionToGlobal ⟨"abcdef".data, 10⟩ ⟨2, 5, "xyz".data⟩) =
      ⟨2, 5, "xyz".data⟩ :=
  c5_offset_reconciliation.2.1 ⟨"abcdef".data, 10⟩ ⟨2, 5, "xyz".data⟩ (by decide)

/-- C6 (counterexample): importing does not preserve existing annotations
whose ids are absent from the bundle.  The store holds an annotation with id
a0 for the submission; after importing the single incoming annotation a2,
the a0 record is gone, contradicting the claim that it remains in the merged
list. -/
theorem c6_counterexample :
    ({ id := "a0", start := 0, endPos := 1, comment := "keep" } : Annotation) ∈
        annotationsFor
          [⟨"t:u", "t", "u", { id := "a0", start := 0, endPos := 1, comment := "keep" }⟩]
          "t:u" "t" "u" ∧
      ({ id := "a0", start := 0, endPos := 1, comment := "keep" } : Annotation) ∉
        annotationsFor
          (saveAnnotations
            [⟨"t:u", "t", "u", { id := "a0", start := 0, endPos := 1, comment := "keep" }⟩]
            "t:u" "t" "u"
            [{ id := "a2", start := 2, endPos := 3, comment := "fresh" }])
          "t:u" "t" "u" := by
  decide

/-- C6 (amended): the import's saveAnnotations replaces the stored text
annotation list of a (submission, task, user) key wholesale — after the call
the list for that key equals exactly the incoming list (so same-id records
are overwritten and fresh ids appear, but existing annotations absent from
the bundle are deleted) — and rows under any other key are untouched.  The
scenario "existing [a1 old], incoming [a1 new, a2 fresh] gives [a1 new, a2
fresh]" holds as stated. -/
theorem c6_amended_replace_semantics :
    (∀ (store : List AnnRow) (sid tid uid : String) (incoming : List Annotation),
        annotationsFor (saveAnnotations store sid tid uid incoming) sid tid uid =
          incoming)
    ∧ (∀ (store : List AnnRow) (sid tid uid : String)
        (incoming : List Annotation) (r : AnnRow),
        rowKeyMatches sid tid uid r = false →
        (r ∈ saveAnnotations store sid tid uid incoming ↔ r ∈ store))
    ∧ annotationsFor
        (saveAnnotations
          [⟨"t:u", "t", "u", { id := "a1", start := 0, endPos := 1, comment := "old" }⟩]
          "t:u" "t" "u"
          [{ id := "a1", start := 0, endPos := 1, comment := "new" },
           { id := "a2", start := 2, endPos := 3, comment := "fresh" }])
        "t:u" "t" "u" =
      [{ id := "a1", start := 0, endPos := 1, comment := "new" },
       { id := "a2", start := 2, endPos := 3, comment := "fresh" }] := by
  refine ⟨fun store sid tid uid incoming => ?_,
    fun store sid tid uid incoming r hr => ?_, by decide⟩
  · unfold annotationsFor saveAnnotations
    rw [List.filter_append]
    have h1 : (store.filter fun r => !rowKeyMatches sid tid uid r).filter
        (rowKeyMatches sid tid uid) = [] := by
      induction store with
      | nil => rfl
      | cons r rs ih =>
        by_cases h : rowKeyMatches sid tid uid r <;>
          simp [List.filter_cons, h, ih]
    have h2 : (incoming.map fun a => (⟨sid, tid, uid, a⟩ : AnnRow)).filter
        (rowKeyMatches sid tid uid) =
        incoming.map fun a => (⟨sid, tid, uid, a⟩ : AnnRow) := by
      rw [List.filter_eq_self]
      intro r hr
      simp only [List.mem_map] at hr
      obtain ⟨a, -, rfl⟩ := hr
      simp [rowKeyMatches]
    rw [h1, h2, List.nil_append, List.map_map]
    exact List.map_id'' (fun a => rfl) incoming
  · unfold saveAnnotations
    rw [List.mem_append]
    constructor
    · rintro (h | h)
      · exact (List.mem_filter.mp h).1
      · simp only [List.mem_map] at h
        obtain ⟨a, -, rfl⟩ := h
        simp [rowKeyMatches] at hr
    · intro h
      exact Or.inl (List.mem_filter.mpr ⟨h, by simp [hr]⟩)

/-- C6 (witness): a row under a different submission key survives a save
unchanged. -/
theorem c6_amended_witness :
    (⟨"other", "t", "u", mkAnn 0 1⟩ : AnnRow) ∈
        saveAnnotations [⟨"other", "t", "u", mkAnn 0 1⟩] "s" "t" "u" [mkAnn 1 2] ↔
      (⟨"other", "t", "u", mkAnn 0 1⟩ : AnnRow) ∈
        [(⟨"other", "t", "u", mkAnn 0 1⟩ : AnnRow)] :=
  c6_amended_replace_semantics.2.1 [⟨"other", "t", "u", mkAnn 0 1⟩] "s" "t" "u"
    [mkAnn 1 2] ⟨"other", "t", "u", mkAnn 0 1⟩ (by decide)

/-- C7: the splitting scenario — the text "Hello world.\n\nThis is paragraph
two.\n\n\nThird." yields exactly the three paragraphs with offsets 0, 14 and
39; the three-newline run is consumed as one separator. -/
theorem c7_paragraph_split_scenario :
    paragraphs "Hello world.\n\nThis is paragraph two.\n\n\nThird.".data =
      [⟨"Hello world.".data, 0⟩, ⟨"This is paragraph two.".data, 14⟩,
       ⟨"Third.".data, 39⟩] := by
  decide

/-- C8: top-level import validation is atomic — a bundle missing any of the
project, tasks or annotations keys is rejected with the user-facing error and
every table (projects, tasks, submissions, annotation rows) is left exactly
as it was; when all three keys are present validation passes and the merge
runs. -/
theorem c8_import_validation (st : AppState) (b : Bundle) :
    ((b.project = none ∨ b.tasks = none ∨ b.annotations = none) →
        handleImportProject st b = (st, some "Invalid project file format"))
    ∧ (∀ p ts ans, b.project = some p → b.tasks = some ts →
        b.annotations = some ans →
        handleImportProject st b = (applyImport st p ts ans, none)) := by
  constructor
  · intro h
    rcases b with ⟨bp, bt, ba⟩
    rcases bp with - | p <;> rcases bt with - | ts <;> rcases ba with - | ans <;>
      simp_all [handleImportProject]
  · intro p ts ans hp ht ha
    rcases b with ⟨bp, bt, ba⟩
    simp_all [handleImportProject]

/-- C8 (witness): a bundle with no keys at all leaves the empty state
untouched and reports the error. -/
theorem c8_import_validation_witness :
    handleImportProject ⟨[], [], [], []⟩ ⟨none, none, none⟩ =
      (⟨[], [], [], []⟩, some "Invalid project file format") :=
  (c8_import_validation ⟨[], [], [], []⟩ ⟨none, none, none⟩).1 (Or.inl rfl)

/-- C9: a completed drag whose width and height are both strictly below one
percentage point produces the fixed 5-by-5 square with top-left at
(startX - 2.5, startY - 2.5); any other drag produces the drawn rectangle
with top-left at the component-wise minimum and size the absolute
differences. -/
theorem c9_zero_size_pin_default :
    ∀ s e : ℚ × ℚ,
      (|e.1 - s.1| < 1 → |e.2 - s.2| < 1 →
        ImageWithPinpoints.handleMouseUp s e = ⟨s.1 - 2.5, s.2 - 2.5, 5, 5⟩)
      ∧ ((1 ≤ |e.1 - s.1| ∨ 1 ≤ |e.2 - s.2|) →
        ImageWithPinpoints.handleMouseUp s e =
          ⟨min s.1 e.1, min s.2 e.2, |e.1 - s.1|, |e.2 - s.2|⟩) := by
  intro s e
  constructor
  · intro h1 h2
    simp [ImageWithPinpoints.handleMouseUp, h1, h2]
  · intro h
    rw [ImageWithPinpoints.handleMouseUp]
    rw [if_neg]
    rintro ⟨c1, c2⟩
    rcases h with h | h <;> linarith

/-- C9 (witness): a pure click (zero-size drag) at (10, 10) produces the
default 5-by-5 pin. -/
theorem c9_zero_size_pin_witness :
    ImageWithPinpoints.handleMouseUp ((10 : ℚ), (10 : ℚ)) ((10 : ℚ), (10 : ℚ)) =
      ⟨10 - 2.5, 10 - 2.5, 5, 5⟩ :=
  (c9_zero_size_pin_default (10, 10) (10, 10)).1 (by norm_num) (by norm_num)

/-- C10: a selection event carries the whitespace-trimmed selected string,
with start the index of its first occurrence in the paragraph content and
end = start + length; an empty trim or an absent string emits nothing.  The
recorded range always points at the first occurrence: in the content "ab ab"
a selection reading " ab " is recorded at [0, 2) even though the text also
occurs at index 3. -/
theorem c10_selection_first_occurrence :
    (∀ (content selectedRaw : List Char) (s : SelectionState),
        TextDisplay.handleMouseUp content selectedRaw = some s →
          s.text = jsTrim selectedRaw ∧
          s.endPos = s.start + s.text.length ∧
          occursAt content s.text s.start = true ∧
          ∀ k, k < s.start → occursAt content s.text k = false)
    ∧ (∀ (content selectedRaw : List Char), jsTrim selectedRaw = [] →
        TextDisplay.handleMouseUp content selectedRaw = none)
    ∧ (∀ (content selectedRaw : List Char),
        (∀ i, occursAt content (jsTrim selectedRaw) i = false) →
        TextDisplay.handleMouseUp content selectedRaw = none)
    ∧ TextDisplay.handleMouseUp "ab ab".data " ab ".data = some ⟨0, 2, "ab".data⟩
    ∧ occursAt "ab ab".data "ab".data 3 = true := by
  refine ⟨fun content selectedRaw s h => ?_, fun content selectedRaw h => ?_,
    fun content selectedRaw h => ?_, by decide, by decide⟩
  · by_cases hlen : (jsTrim selectedRaw).length = 0
    · simp [TextDisplay.handleMouseUp, hlen] at h
    · simp only [TextDisplay.handleMouseUp, hlen, if_false] at h
      cases hf : findFrom content (jsTrim selectedRaw) 0 with
      | none => rw [hf] at h; cases h
      | some i =>
        rw [hf] at h
        cases h
        obtain ⟨-, hocc, hmin⟩ := findFrom_some hf
        exact ⟨rfl, rfl, hocc, fun k hk => hmin k (Nat.zero_le k) hk⟩
  · simp [TextDisplay.handleMouseUp, h]
  · by_cases hlen : (jsTrim selectedRaw).length = 0
    · simp [TextDisplay.handleMouseUp, hlen]
    · simp only [TextDisplay.handleMouseUp, hlen, if_false]
      rw [findFrom_none_of_never h]

/-- C10 (witness): a selection that is all whitespace emits no event. -/
theorem c10_selection_witness :
    TextDisplay.handleMouseUp "abc".data "   ".data = none :=
  c10_selection_first_occurrence.2.1 "abc".data "   ".data (by decide)
